import Mathlib

/-!
# Verification of the gomason release pipeline

A shallow embedding of the gomason sources (`mason/signing.go`,
`mason/testing.go`, `pkg/gomason/building.go`) into Lean 4, together with
theorems settling the spec's claims about identity resolution, the build
matrix executor, workspace lifecycle, binary collection and extra-artifact
rendering.

External collaborators (the `gpg` binary, the `gox` cross-compiler, the
filesystem, subprocess exits) are modelled explicitly: a subprocess exit
status is a boolean oracle, the filesystem is a list of paths or an
association list, and a Go `panic` is the `GoResult.panicked` constructor.
-/

namespace Gomason

/-- Outcome of running a piece of Go code: a normal value, or a runtime
panic (e.g. a failed interface type assertion). -/
inductive GoResult (α : Type) where
  | ok : α → GoResult α
  | panicked : GoResult α
deriving DecidableEq, Repr

/-- A value held in the open-ended `Options` mapping of `metadata.json`
(Go: `map[string]interface{}`): either a JSON string or some non-string
value. -/
inductive OptVal where
  | str : String → OptVal
  | other : OptVal
deriving DecidableEq, Repr

/-- The `signing` section of `metadata.json` (Go: `meta.SignInfo`),
with a signing program name and a signing identity (email). -/
structure SignInfo where
  Program : String
  Email : String
deriving DecidableEq, Repr

/-- The `user` section of `~/.gomason` (field `Email`). -/
structure UserSection where
  Email : String
deriving DecidableEq, Repr

/-- The `signing` section of `~/.gomason` (field `Program`). -/
structure SigningSection where
  Program : String
deriving DecidableEq, Repr

/-- The per-operator override file `~/.gomason` (Go struct `UserConfig`). -/
structure UserConfig where
  User : UserSection
  Signing : SigningSection
deriving DecidableEq, Repr

/-- One entry of `buildInfo.targets` in `metadata.json`: platform name,
cgo flag, and extra environment flags (the Go map is embedded as an
association list). -/
structure BuildTarget where
  Name : String
  Cgo : Bool
  Flags : List (String × String)
deriving DecidableEq, Repr

/-- One entry of `buildInfo.extras`: a template path, an output file name,
and the executable bit for the rendered output. -/
structure ExtraArtifact where
  Template : String
  FileName : String
  Executable : Bool
deriving DecidableEq, Repr

/-- The `buildInfo` section of `metadata.json`. -/
structure BuildInfo where
  Targets : List BuildTarget
  Extras : List ExtraArtifact
deriving DecidableEq, Repr

/-- The parsed `metadata.json` descriptor (Go struct `Metadata`), including
the result-record fields (`WorkDir`, `Path`, `GitPath`) that the pipeline
orchestrator fills in incrementally, and the legacy flat `BuildTargets`
list used by `mason.WholeShebang`. -/
structure Metadata where
  Package : String
  Version : String
  Description : String
  BuildTargets : List String
  BuildInfo : BuildInfo
  SignInfo : SignInfo
  Options : List (String × OptVal)
  WorkDir : String
  Path : String
  GitPath : String
deriving DecidableEq, Repr

/-- The zero value of the Go `Metadata` struct
(`var buildmetadata Metadata`). -/
def Metadata.empty : Metadata :=
  { Package := "", Version := "", Description := "", BuildTargets := [],
    BuildInfo := { Targets := [], Extras := [] },
    SignInfo := { Program := "", Email := "" }, Options := [],
    WorkDir := "", Path := "", GitPath := "" }

/-- Go map lookup on the embedded `Options` association list: the value
under the first matching key, `none` when absent. -/
def lookupOpt (opts : List (String × OptVal)) (k : String) : Option OptVal :=
  match opts with
  | [] => none
  | (k', v) :: rest => if k' = k then some v else lookupOpt rest k

/-! ## Signing and verification engine (`mason/signing.go`) -/

/-- `const defaultSigningProgram = "gpg"` (signing.go line 12). -/
def defaultSigningProgram : String := "gpg"

/-- Error taxonomy for the signing engine, mirroring the distinct error
values `mason/signing.go` can produce. -/
inductive SignErr where
  /-- the wrap of a `GetUserConfig` failure (signing.go line 29);
  assigned but overwritten before any return. -/
  | configWrap : SignErr
  /-- "Cannot sign without a signing entity (email)" (line 43). -/
  | resolution : SignErr
  /-- `exec.LookPath` failed to find the named program. -/
  | lookPath : String → SignErr
  /-- `cmd.Run()` returned non-zero, wrapped "failed to run" the program. -/
  | subprocess : String → SignErr
  /-- `errors.Wrap` of an inner error with the resolved program name
  ("failed to run %q", signing.go lines 57 and 79). -/
  | wrapped : String → SignErr → SignErr
deriving DecidableEq, Repr

/-- The external world seen by one `SignGPG`/`VerifyGPG` call: whether
`exec.LookPath "gpg"` succeeds, and whether the spawned gpg process exits
with status zero. -/
structure GpgWorld where
  gpgFound : Bool
  runOk : Bool
deriving DecidableEq, Repr

/-- Argument-list construction of `SignGPG` (signing.go lines 98-106).
When `Options` carries a `"keyring"` key, the code reads
`meta.Options["trustdb"].(string)` and `keyring.(string)` with unguarded
type assertions; a missing or non-string value makes the Go code panic,
embedded here as `none`. -/
def signGPGArgs (binary signingEntity : String) (meta : Metadata) :
    Option (List String) :=
  match lookupOpt meta.Options "keyring" with
  | some kv =>
    match lookupOpt meta.Options "trustdb" with
    | some (OptVal.str td) =>
      match kv with
      | OptVal.str kr =>
        some ["--trustdb", td, "--no-default-keyring", "--keyring", kr,
              "-bau", signingEntity, binary]
      | OptVal.other => none
    | _ => none
  | none => some ["-bau", signingEntity, binary]

/-- Argument-list construction of `VerifyGPG` (signing.go lines 135-142),
with the same unguarded `trustdb`/`keyring` type assertions. -/
def verifyGPGArgs (sigFile : String) (meta : Metadata) :
    Option (List String) :=
  match lookupOpt meta.Options "keyring" with
  | some kv =>
    match lookupOpt meta.Options "trustdb" with
    | some (OptVal.str td) =>
      match kv with
      | OptVal.str kr =>
        some ["--trustdb", td, "--no-default-keyring", "--keyring", kr,
              "--verify", sigFile]
      | OptVal.other => none
    | _ => none
  | none => some ["--verify", sigFile]

/-- `SignGPG` (signing.go lines 88-120): look up gpg in the path, build the
command, run it.  Returns the list of signer processes actually spawned
(each as its argument list) together with the Go function's result. -/
def SignGPG (binary signingEntity : String) (meta : Metadata) (w : GpgWorld) :
    List (List String) × GoResult (Option SignErr) :=
  if w.gpgFound then
    match signGPGArgs binary signingEntity meta with
    | none => ([], GoResult.panicked)
    | some args =>
      ([args],
       GoResult.ok (if w.runOk then none else some (SignErr.subprocess "gpg")))
  else ([], GoResult.ok (some (SignErr.lookPath "gpg")))

/-- `VerifyGPG` (signing.go lines 123-159): the signature file is the
binary path with `".asc"` appended; gpg is looked up and run on it; `ok`
is set to `true` only after `cmd.Run()` returns without error, and a run
error is returned as-is alongside `ok = false`. -/
def VerifyGPG (binary : String) (meta : Metadata) (w : GpgWorld) :
    List (List String) × GoResult (Bool × Option SignErr) :=
  let sigFile := binary ++ ".asc"
  if w.gpgFound then
    match verifyGPGArgs sigFile meta with
    | none => ([], GoResult.panicked)
    | some args =>
      ([args],
       GoResult.ok (if w.runOk then (true, none)
                    else (false, some (SignErr.subprocess "gpg"))))
  else ([], GoResult.ok (false, some (SignErr.lookPath "gpg")))

/-- The three program-resolution statements of `SignBinary`
(signing.go lines 20-23 and 38-40): start from the descriptor's program,
default it to `defaultSigningProgram` when empty, then let a non-empty
`~/.gomason` program override it. -/
def resolveProgram (si : SignInfo) (cfg : UserConfig) : String :=
  let signProg := si.Program
  let signProg := if signProg = "" then defaultSigningProgram else signProg
  if cfg.Signing.Program ≠ "" then cfg.Signing.Program else signProg

/-- The identity-resolution statements of `SignBinary`
(signing.go lines 25 and 33-35): the descriptor's email, overridden by a
non-empty `~/.gomason` email. -/
def resolveEntity (si : SignInfo) (cfg : UserConfig) : String :=
  let signEntity := si.Email
  if cfg.User.Email ≠ "" then cfg.User.Email else signEntity

/-- `SignBinary` (signing.go lines 15-63).  `config` and `configErr` are
the two return values of `GetUserConfig` (whose body is outside the
embedded sources; `SignBinary` treats them opaquely).  A `GetUserConfig`
error is wrapped into `err` (line 29) but never returned: every later path
overwrites `err`.  Returns the spawned signer processes and the result. -/
def SignBinary (meta : Metadata) (binary : String) (config : UserConfig)
    (configErr : Option Unit) (w : GpgWorld) :
    List (List String) × GoResult (Option SignErr) :=
  let err0 : Option SignErr := configErr.map (fun _ => SignErr.configWrap)
  let signProg := resolveProgram meta.SignInfo config
  let signEntity := resolveEntity meta.SignInfo config
  let _ := err0
  if signEntity = "" then ([], GoResult.ok (some SignErr.resolution))
  else
    match SignGPG binary signEntity meta w with
    | (invs, GoResult.panicked) => (invs, GoResult.panicked)
    | (invs, GoResult.ok none) => (invs, GoResult.ok none)
    | (invs, GoResult.ok (some e)) =>
      (invs, GoResult.ok (some (SignErr.wrapped signProg e)))

/-! ## Build matrix executor (`pkg/gomason/building.go`, `Build`) -/

/-- A Go environment entry `k=v` as appended by
`fmt.Sprintf("%s=%s", k, v)`. -/
def envEntry (k v : String) : String := k ++ "=" ++ v

/-- The per-target environment overlay of `Build`
(building.go lines 97-98 and 106-111): the inherited process environment,
then `GOPATH=<gopath>`, then one `k=v` entry per extra build flag. -/
def goxEnv (base : List String) (gopath : String) (t : BuildTarget) :
    List String :=
  (base ++ [envEntry "GOPATH" gopath]) ++ t.Flags.map (fun kv => envEntry kv.1 kv.2)

/-- The gox command line of `Build` (building.go lines 100-104 and 113):
the gox path, `" -cgo"` exactly when the target enables cgo, the target's
platform string inside `-osarch="..."`, and `./...`. -/
def goxArgs (gox : String) (t : BuildTarget) : String :=
  gox ++ (if t.Cgo then " -cgo" else "") ++ " -osarch=\"" ++ t.Name ++ "\" ./..."

/-- One compiler invocation as `Build` issues it: the environment handed to
`cmd.Env` and the shell command string handed to `sh -c`. -/
structure GoxInvocation where
  env : List String
  args : String
deriving DecidableEq, Repr

/-- The invocation `Build` constructs for one target. -/
def mkGoxInvocation (base : List String) (gopath gox : String)
    (t : BuildTarget) : GoxInvocation :=
  { env := goxEnv base gopath t, args := goxArgs gox t }

/-- Error result of the build matrix loop: `cmd.CombinedOutput()` returned
a non-zero exit, returned from `Build` unchanged (building.go line 130). -/
inductive BuildErr where
  | subprocess : BuildErr
deriving DecidableEq, Repr

/-- The target loop of `Build` (building.go lines 89-137), over the targets
read from the checked-out `metadata.json`.  `runOk i` is the exit status of
the `i`-th spawned compiler process (`true` = exit zero).  Returns the
invocations actually issued, in order, and the function's error result: on
the first non-zero exit the error is returned immediately and the loop
stops. -/
def Build (base : List String) (gopath gox : String) :
    List BuildTarget → (Nat → Bool) → List GoxInvocation × Option BuildErr
  | [], _ => ([], none)
  | t :: rest, runOk =>
    let inv := mkGoxInvocation base gopath gox t
    if runOk 0 then
      let r := Build base gopath gox rest (fun i => runOk (i + 1))
      (inv :: r.1, r.2)
    else ([inv], some BuildErr.subprocess)

/-! ## Workspace lifecycle (`mason/testing.go`, `WholeShebang`
lines 125-146 and the deferred `os.RemoveAll`) -/

/-- `os.RemoveAll dir` over a filesystem embedded as a list of paths:
removes the path itself and everything below it. -/
def RemoveAll (fs : List String) (dir : String) : List String :=
  fs.filter (fun p => decide ¬(p = dir ∨ (dir ++ "/").isPrefixOf p))

/-- Outcome of the workspace handling of one `WholeShebang` run:
the working directory actually used, whether it was self-allocated, the
filesystem after acquisition, and the filesystem after the deferred
cleanup at run end. -/
structure WorkspaceRun where
  actualWorkDir : String
  selfAllocated : Bool
  fsAfterAcquire : List String
  fsAfterRelease : List String
deriving DecidableEq, Repr

/-- The workspace acquisition and release of `WholeShebang`
(testing.go lines 131-144 and the `defer os.RemoveAll(actualWorkDir)` at
line 141): an empty `workDir` allocates a fresh temporary directory
(`tmpName`, the unique name `ioutil.TempDir` picked) and registers its
removal for run end; a non-empty `workDir` is used verbatim and no removal
is ever registered. -/
def wholeShebangWorkspace (workDir tmpName : String) (fs : List String) :
    WorkspaceRun :=
  if workDir = "" then
    let fs1 := tmpName :: fs
    { actualWorkDir := tmpName, selfAllocated := true,
      fsAfterAcquire := fs1, fsAfterRelease := RemoveAll fs1 tmpName }
  else
    { actualWorkDir := workDir, selfAllocated := false,
      fsAfterAcquire := fs, fsAfterRelease := fs }

/-! ## Binary collection (`mason/testing.go`, `WholeShebang`
lines 195-220) -/

/-- Go's `strings.Split` on a single-character separator, over the
character list: the groups between separator occurrences.  Always returns
at least one group. -/
def splitOnChar (c : Char) : List Char → List (List Char)
  | [] => [[]]
  | ch :: rest =>
    if ch = c then [] :: splitOnChar c rest
    else match splitOnChar c rest with
      | [] => [[ch]]
      | g :: gs => (ch :: g) :: gs

/-- `strings.Split(s, sep)` of the Go standard library for a
single-character separator. -/
def stringsSplit (s : String) (sep : Char) : List String :=
  (splitOnChar sep s.data).map (fun cs => String.mk cs)

/-- `parts := strings.Split(pkg, "/"); binaryPrefix := parts[len(parts)-1]`
(testing.go lines 195-197): the tail of the package path.
(`stringsSplit` never returns an empty list, so the default of `getLastD`
is never used.) -/
def packageTail (pkg : String) : String :=
  (stringsSplit pkg '/').getLastD ""

/-- The expected output binary for one legacy build-target string
`os/arch` (testing.go lines 200-206):
`<gopath>/src/<pkg>/<packageTail>_<os>_<arch>`.  Malformed target strings
(no slash) make the Go code panic on `archparts[1]`; that case is handled
by the caller. -/
def expectedBinary (gopath pkg : String) (osname archname : String) : String :=
  gopath ++ "/src/" ++ pkg ++ "/" ++ packageTail pkg ++ "_" ++ osname ++ "_" ++ archname

/-- The destination the binary is renamed to (testing.go line 213):
`<cwd>/<packageTail>_<os>_<arch>`. -/
def destBinary (cwd pkg : String) (osname archname : String) : String :=
  cwd ++ "/" ++ packageTail pkg ++ "_" ++ osname ++ "_" ++ archname

/-- Error taxonomy of the collection loop. -/
inductive CollectErr where
  /-- "Gox failed to build binary: ..." (testing.go line 209): the compiler
  reported success but the expected binary is absent. -/
  | partialBuild : String → CollectErr
  /-- the wrap "Failed to collect binary ..." of an `os.Rename` failure
  (testing.go line 217). -/
  | renameFail : String → CollectErr
deriving DecidableEq, Repr

/-- The binary-collection loop of `WholeShebang` (testing.go
lines 199-220).  For each target `os/arch` in order: stat the expected
binary (absence is a distinct error and returns immediately), then rename
it into the caller's original working directory (`renameOk` is the rename
oracle; a failure returns immediately).  The filesystem is threaded: a
successful rename removes the source path and adds the destination.
A target string without a `/` separator makes `archparts[1]` panic.
Returns the final filesystem, the renames performed (source, destination)
in order, and the error result. -/
def collectBinaries (gopath pkg cwd : String) (renameOk : String → Bool) :
    List String → List String →
    GoResult (List String × List (String × String) × Option CollectErr)
  | _fs, [] => GoResult.ok (_fs, [], none)
  | fs, arch :: rest =>
    match stringsSplit arch '/' with
    | osname :: archname :: _ =>
      let binary := expectedBinary gopath pkg osname archname
      if binary ∈ fs then
        let dest := destBinary cwd pkg osname archname
        if renameOk binary then
          match collectBinaries gopath pkg cwd renameOk (dest :: fs.erase binary) rest with
          | GoResult.ok (fs', moves, e) =>
            GoResult.ok (fs', (binary, dest) :: moves, e)
          | GoResult.panicked => GoResult.panicked
        else GoResult.ok (fs, [], some (CollectErr.renameFail binary))
      else GoResult.ok (fs, [], some (CollectErr.partialBuild binary))
    | _ => GoResult.panicked

/-- `archparts[0]` of a target string `os/arch` (testing.go line 202). -/
def osOf (arch : String) : String := (stringsSplit arch '/').headD ""

/-- `archparts[1]` of a target string `os/arch` (testing.go line 203). -/
def archNameOf (arch : String) : String :=
  ((stringsSplit arch '/').drop 1).headD ""

/-- The expected binary of one target string, via its `os`/`arch` parts. -/
def expBin (gopath pkg arch : String) : String :=
  expectedBinary gopath pkg (osOf arch) (archNameOf arch)

/-- The rename destination of one target string. -/
def destOf (cwd pkg arch : String) : String :=
  destBinary cwd pkg (osOf arch) (archNameOf arch)

/-! ## Pipeline orchestrator (`mason/testing.go`, `WholeShebang`) -/

/-- The pipeline stages of `WholeShebang`, in the order the code attempts
them. -/
inductive StageTag where
  | getwd | tempDir | goPath | govendorInstall | readMeta
  | checkout | sync | test | build | collect
deriving DecidableEq, Repr

/-- An error as `WholeShebang` returns it: the stage that produced it and
whether the code wrapped it with stage-identifying context
(`errors.Wrap`/`Wrapf`) before returning. -/
structure StageErr where
  stage : StageTag
  wrappedWithContext : Bool
deriving DecidableEq, Repr

/-- The external world seen by one `WholeShebang` run: per-stage success
oracles, the values the external collaborators return, and the state of
the workspace after the build stage (`binariesOk` collapses the
collection loop of `collectBinaries`: all expected binaries exist and all
renames succeed). -/
structure ShebangWorld where
  getwdOk : Bool
  tempDirOk : Bool
  goPathOk : Bool
  govendorInstallOk : Bool
  readMetaOk : Bool
  checkoutOk : Bool
  syncOk : Bool
  testOk : Bool
  /-- exit status of the legacy `mason.Build` call (the gox run). -/
  buildOk : Bool
  /-- the collection loop finds every expected binary and every rename
  succeeds. -/
  binariesOk : Bool
  /-- the name `ioutil.TempDir` allocates. -/
  tmpName : String
  /-- the path `CreateGoPath` returns. -/
  gopathVal : String
  /-- the descriptor `ReadMetadata "metadata.json"` parses. -/
  meta : Metadata
  /-- the URL `GitSSHUrlFromPackage` derives from the package. -/
  gitUrlVal : String
deriving DecidableEq, Repr

/-- The stage sequencing of `WholeShebang` (testing.go lines 122-235),
with the incremental population of the result record `buildmetadata`.
Faithful to the source, including its two anomalies: a `TempDir` failure
is wrapped into `err` (line 134) but not returned — control continues and
`err` is overwritten at the next stage; and the `Build` call's return
value is discarded (line 194), so a failing compiler run does not return —
control falls through to the binary-collection loop, whose outcome depends
only on `binariesOk`. -/
def WholeShebang (w : ShebangWorld) (workDir : String)
    (build _sign _publish : Bool) : Metadata × Option StageErr :=
  let bm0 := Metadata.empty
  if ¬w.getwdOk then (bm0, some ⟨StageTag.getwd, true⟩)
  else
    let actualWorkDir := if workDir = "" then w.tmpName else workDir
    let bm1 := { bm0 with WorkDir := actualWorkDir }
    if ¬w.goPathOk then (bm1, some ⟨StageTag.goPath, false⟩)
    else
      let bm2 := { bm1 with Path := w.gopathVal }
      if ¬w.govendorInstallOk then (bm2, some ⟨StageTag.govendorInstall, false⟩)
      else if ¬w.readMetaOk then (bm2, some ⟨StageTag.readMeta, true⟩)
      else
        let bm3 := { bm2 with Package := w.meta.Package,
                              Version := w.meta.Version,
                              GitPath := w.gitUrlVal }
        if ¬w.checkoutOk then (bm3, some ⟨StageTag.checkout, true⟩)
        else if ¬w.syncOk then (bm3, some ⟨StageTag.sync, true⟩)
        else if ¬w.testOk then (bm3, some ⟨StageTag.test, true⟩)
        else if build then
          if ¬w.binariesOk then (bm3, some ⟨StageTag.collect, false⟩)
          else (bm3, none)
        else (bm3, none)

/-! ## Extras generator (`pkg/gomason/building.go`, `BuildExtras`) -/

/-- A piece of template text: a literal run, or one of the named
placeholders the renderer substitutes descriptor fields into. -/
inductive Tok where
  | lit : String → Tok
  | phPackage : Tok
  | phVersion : Tok
  | phDescription : Tok
deriving DecidableEq, Repr

/-- Modelled from the spec: the body of `ParseTemplateForMetadata` is not
under `src/` (only its caller `BuildExtras` is).  Per the spec it
"performs a textual substitution pass injecting the PackageDescriptor's
fields (package, version, description) into named placeholders"; template
text is embedded as a sequence of literal runs and placeholder tokens, and
rendering replaces each placeholder by the corresponding descriptor
field. -/
def ParseTemplateForMetadata (tmpl : List Tok) (meta : Metadata) : String :=
  match tmpl with
  | [] => ""
  | Tok.lit s :: rest => s ++ ParseTemplateForMetadata rest meta
  | Tok.phPackage :: rest => meta.Package ++ ParseTemplateForMetadata rest meta
  | Tok.phVersion :: rest => meta.Version ++ ParseTemplateForMetadata rest meta
  | Tok.phDescription :: rest =>
    meta.Description ++ ParseTemplateForMetadata rest meta

/-- A file written by `ioutil.WriteFile`: path, rendered content, and the
`os.FileMode` permission bits (as a natural number). -/
structure WrittenFile where
  path : String
  content : String
  mode : Nat
deriving DecidableEq, Repr

/-- Error result of `BuildExtras`: the wrap of a template read failure
("failed to read template file ...", building.go line 175). -/
inductive ExtrasErr where
  | readTemplate : String → ExtrasErr
deriving DecidableEq, Repr

/-- The loop body of `BuildExtras` (building.go lines 155-190) over a list
of extra artifacts.  For each artifact in order: read
`<workdir>/<template>` from the filesystem (`tfs` maps a path to the
template text stored there; a missing file aborts immediately with the
wrapped read error), render it with `ParseTemplateForMetadata`, and write
`<workdir>/<fileName>` with mode `0755` (octal, = 493) when the artifact
is marked executable and `0644` (= 420) otherwise.  Returns the files
written, in order, and the error result. -/
def buildExtrasLoop (meta : Metadata) (workdir : String)
    (tfs : String → Option (List Tok)) :
    List ExtraArtifact → List WrittenFile × Option ExtrasErr
  | [] => ([], none)
  | extra :: rest =>
    let templateName := workdir ++ "/" ++ extra.Template
    let outputFileName := workdir ++ "/" ++ extra.FileName
    let mode : Nat := if extra.Executable then 493 else 420
    match tfs templateName with
    | none => ([], some (ExtrasErr.readTemplate templateName))
    | some tmpl =>
      let output := ParseTemplateForMetadata tmpl meta
      let r := buildExtrasLoop meta workdir tfs rest
      ({ path := outputFileName, content := output, mode := mode } :: r.1, r.2)

/-- `BuildExtras` (building.go lines 150-193): the loop over
`meta.BuildInfo.Extras`. -/
def BuildExtras (meta : Metadata) (workdir : String)
    (tfs : String → Option (List Tok)) :
    List WrittenFile × Option ExtrasErr :=
  buildExtrasLoop meta workdir tfs meta.BuildInfo.Extras

/-- The file `BuildExtras` writes for one extra artifact whose template
read succeeds. -/
def expectedWrite (meta : Metadata) (workdir : String)
    (tfs : String → Option (List Tok)) (e : ExtraArtifact) : WrittenFile :=
  { path := workdir ++ "/" ++ e.FileName,
    content := ParseTemplateForMetadata
      ((tfs (workdir ++ "/" ++ e.Template)).getD []) meta,
    mode := if e.Executable then 493 else 420 }

/-! ## Concrete fixtures used as evaluation inputs -/

/-- A descriptor with two extra artifacts, one executable and one not. -/
def extrasMeta : Metadata :=
  { Metadata.empty with
    Package := "acme/widget", Version := "1.2.3",
    BuildInfo :=
      { Targets := [],
        Extras := [⟨"tpl1", "run.sh", true⟩, ⟨"tpl2", "notes.txt", false⟩] } }

/-- A template filesystem holding the two templates of `extrasMeta` under
the workdir `"/w"`; the first mentions the package and version
placeholders. -/
def extrasTfs : String → Option (List Tok) := fun p =>
  if p = "/w/tpl1" then
    some [Tok.lit "pkg=", Tok.phPackage, Tok.lit " v=", Tok.phVersion]
  else if p = "/w/tpl2" then some [Tok.lit "readme"]
  else none

/-- A run in which every stage succeeds except the compiler invocation,
while the expected binaries exist in the workspace (e.g. stale artifacts
of an earlier run). -/
def shebangWorldStale : ShebangWorld :=
  { getwdOk := true, tempDirOk := true, goPathOk := true,
    govendorInstallOk := true, readMetaOk := true, checkoutOk := true,
    syncOk := true, testOk := true, buildOk := false, binariesOk := true,
    tmpName := "/tmp/gomason1", gopathVal := "/tmp/gomason1/go",
    meta := Metadata.empty, gitUrlVal := "" }

/-- The same failing-compiler run with no binaries on disk. -/
def shebangWorldClean : ShebangWorld :=
  { shebangWorldStale with binariesOk := false }

/-! ## Theorems: signing and verification claims -/

/-- C1: for every descriptor signing section and every user config,
signing-identity and signing-program resolution in `SignBinary` is total
and precedence-ordered: the effective program is the user-config program
when non-empty, else the descriptor program, else the default reference
signer name `"gpg"`; the effective identity is the user-config email when
non-empty, else the descriptor email; and `SignBinary` fails with the
resolution error exactly when the effective identity is empty. -/
theorem signBinary_resolution_precedence (meta : Metadata) (binary : String)
    (config : UserConfig) (configErr : Option Unit) (w : GpgWorld) :
    resolveProgram meta.SignInfo config =
      (if config.Signing.Program ≠ "" then config.Signing.Program
       else if meta.SignInfo.Program ≠ "" then meta.SignInfo.Program
       else defaultSigningProgram) ∧
    resolveEntity meta.SignInfo config =
      (if config.User.Email ≠ "" then config.User.Email
       else meta.SignInfo.Email) ∧
    ((SignBinary meta binary config configErr w).2 =
        GoResult.ok (some SignErr.resolution) ↔
      resolveEntity meta.SignInfo config = "") := by
  refine ⟨?_, ?_, ?_⟩
  · unfold resolveProgram
    by_cases h1 : config.Signing.Program = "" <;>
      by_cases h2 : meta.SignInfo.Program = "" <;> simp [h1, h2]
  · unfold resolveEntity
    by_cases h : config.User.Email = "" <;> simp [h]
  · unfold SignBinary
    by_cases he : resolveEntity meta.SignInfo config = ""
    · simp [he]
    · simp only [he, if_neg, ite_false]
      rcases hS : SignGPG binary (resolveEntity meta.SignInfo config) meta w
        with ⟨invs, r⟩
      match r with
      | GoResult.panicked => simp [hS, he]
      | GoResult.ok none => simp [hS, he]
      | GoResult.ok (some e) => simp [hS, he]

/-- C3: for every run where the descriptor has no signing email and the
user config supplies no email, `SignBinary` fails immediately with the
resolution error and spawns no external signer process. -/
theorem signBinary_no_identity_no_spawn (meta : Metadata) (binary : String)
    (config : UserConfig) (configErr : Option Unit) (w : GpgWorld)
    (hdesc : meta.SignInfo.Email = "") (hcfg : config.User.Email = "") :
    SignBinary meta binary config configErr w =
      ([], GoResult.ok (some SignErr.resolution)) := by
  have he : resolveEntity meta.SignInfo config = "" := by
    simp [resolveEntity, hdesc, hcfg]
  unfold SignBinary
  simp [he]

/-- Witness for C3: the concrete descriptor with empty signing email and
the empty user config. -/
theorem signBinary_no_identity_no_spawn_witness :
    Metadata.empty.SignInfo.Email = "" ∧
    (UserConfig.mk ⟨""⟩ ⟨""⟩).User.Email = "" ∧
    SignBinary Metadata.empty "app" (UserConfig.mk ⟨""⟩ ⟨""⟩) none ⟨true, true⟩ =
      ([], GoResult.ok (some SignErr.resolution)) :=
  ⟨rfl, rfl,
    signBinary_no_identity_no_spawn Metadata.empty "app"
      (UserConfig.mk ⟨""⟩ ⟨""⟩) none ⟨true, true⟩ rfl rfl⟩

/-- C10: `SignBinary` never fails because of a user-config load failure:
its outcome is identical whether `GetUserConfig` reported an error or not
(the wrapped error is discarded), the config-wrap error never escapes, and
resolution proceeds from whatever config values were returned, falling
back to the descriptor values when those are empty. -/
theorem signBinary_ignores_userconfig_error (meta : Metadata)
    (binary : String) (config : UserConfig) (configErr : Option Unit)
    (w : GpgWorld) :
    SignBinary meta binary config configErr w =
      SignBinary meta binary config none w ∧
    (SignBinary meta binary config configErr w).2 ≠
      GoResult.ok (some SignErr.configWrap) ∧
    resolveEntity meta.SignInfo config =
      (if config.User.Email = "" then meta.SignInfo.Email
       else config.User.Email) ∧
    resolveProgram meta.SignInfo config =
      (if config.Signing.Program = ""
       then (if meta.SignInfo.Program = "" then defaultSigningProgram
             else meta.SignInfo.Program)
       else config.Signing.Program) := by
  refine ⟨rfl, ?_, ?_, ?_⟩
  · unfold SignBinary
    by_cases he : resolveEntity meta.SignInfo config = ""
    · simp [he]
    · simp only [he, if_neg, ite_false]
      rcases hS : SignGPG binary (resolveEntity meta.SignInfo config) meta w
        with ⟨invs, r⟩
      match r with
      | GoResult.panicked => simp [hS]
      | GoResult.ok none => simp [hS]
      | GoResult.ok (some e) => simp [hS]
  · unfold resolveEntity
    by_cases h : config.User.Email = "" <;> simp [h]
  · unfold resolveProgram
    by_cases h1 : config.Signing.Program = "" <;>
      by_cases h2 : meta.SignInfo.Program = "" <;> simp [h1, h2]

/-- C9: in both `SignGPG` and `VerifyGPG`, whenever the options mapping
contains the key `"keyring"` but no string-valued `"trustdb"`, the
unguarded `meta.Options["trustdb"].(string)` type assertion panics: the
operation is not total on such inputs. -/
theorem gpg_trustdb_assertion_unguarded (meta : Metadata)
    (binary entity : String) (w : GpgWorld)
    (hk : (lookupOpt meta.Options "keyring").isSome = true)
    (ht : ∀ s, lookupOpt meta.Options "trustdb" ≠ some (OptVal.str s))
    (hw : w.gpgFound = true) :
    (SignGPG binary entity meta w).2 = GoResult.panicked ∧
    (VerifyGPG binary meta w).2 = GoResult.panicked := by
  have hsign : signGPGArgs binary entity meta = none := by
    unfold signGPGArgs
    rcases hkv : lookupOpt meta.Options "keyring" with _ | kv
    · rw [hkv] at hk; simp at hk
    · rcases htv : lookupOpt meta.Options "trustdb" with _ | tv
      · simp
      · cases tv with
        | str s => exact absurd htv (ht s)
        | other => simp
  have hver : verifyGPGArgs (binary ++ ".asc") meta = none := by
    unfold verifyGPGArgs
    rcases hkv : lookupOpt meta.Options "keyring" with _ | kv
    · rw [hkv] at hk; simp at hk
    · rcases htv : lookupOpt meta.Options "trustdb" with _ | tv
      · simp
      · cases tv with
        | str s => exact absurd htv (ht s)
        | other => simp
  constructor
  · unfold SignGPG
    simp [hw, hsign]
  · unfold VerifyGPG
    simp [hw, hver]

/-- Witness for C9: metadata whose options carry `"keyring"` and no
`"trustdb"` key at all. -/
theorem gpg_trustdb_assertion_unguarded_witness :
    (lookupOpt [("keyring", OptVal.str "alt.kbx")] "keyring").isSome = true ∧
    (∀ s, lookupOpt [("keyring", OptVal.str "alt.kbx")] "trustdb" ≠
      some (OptVal.str s)) ∧
    (SignGPG "app" "a@b.com"
        { Metadata.empty with Options := [("keyring", OptVal.str "alt.kbx")] }
        ⟨true, true⟩).2 = GoResult.panicked ∧
    (VerifyGPG "app"
        { Metadata.empty with Options := [("keyring", OptVal.str "alt.kbx")] }
        ⟨true, true⟩).2 = GoResult.panicked := by
  refine ⟨rfl, ?_, ?_⟩
  · intro s
    simp [lookupOpt]
  · exact gpg_trustdb_assertion_unguarded
      { Metadata.empty with Options := [("keyring", OptVal.str "alt.kbx")] }
      "app" "a@b.com" ⟨true, true⟩ rfl
      (fun s => by simp [lookupOpt]) rfl

/-- C4 counterexample: with the default trust store, a gpg verifier run
that exits non-zero makes `VerifyGPG` return `ok = false` together with a
non-nil error — not `ok = false` with no error as the claim states. -/
theorem verifyGPG_counterexample :
    (VerifyGPG "app" Metadata.empty ⟨true, false⟩).2 =
      GoResult.ok (false, some (SignErr.subprocess "gpg")) ∧
    (VerifyGPG "app" Metadata.empty ⟨true, false⟩).2 ≠
      GoResult.ok (false, none) := by
  constructor
  · rfl
  · intro h
    simp [VerifyGPG, verifyGPGArgs, lookupOpt, Metadata.empty] at h

/-- C4 amended: `VerifyGPG` locates the detached signature at the path
obtained by appending `".asc"` to the binary path (the invocation's last
argument), and returns `ok = true` exactly when the external verifier
exits with status zero; a non-zero exit (including a missing signature
file, which the verifier reports as a non-zero exit) yields `ok = false`
together with the returned subprocess error — a reported verification
failure, not a crash. -/
theorem verifyGPG_exit_status (binary : String) (meta : Metadata)
    (w : GpgWorld) (hfound : w.gpgFound = true) (args : List String)
    (hargs : verifyGPGArgs (binary ++ ".asc") meta = some args) :
    VerifyGPG binary meta w =
      ([args], GoResult.ok
        (w.runOk, if w.runOk then none else some (SignErr.subprocess "gpg"))) ∧
    args.getLast? = some (binary ++ ".asc") := by
  constructor
  · unfold VerifyGPG
    simp only [hfound, if_true, hargs]
    cases hr : w.runOk <;> simp [hr]
  · unfold verifyGPGArgs at hargs
    rcases hkv : lookupOpt meta.Options "keyring" with _ | kv
    · rw [hkv] at hargs
      simp only [Option.some.injEq] at hargs
      subst hargs
      rfl
    · rw [hkv] at hargs
      rcases htv : lookupOpt meta.Options "trustdb" with _ | tv
      · rw [htv] at hargs; cases hargs
      · rw [htv] at hargs
        cases tv with
        | str td =>
          cases kv with
          | str kr =>
            simp only [Option.some.injEq] at hargs
            subst hargs
            rfl
          | other => cases hargs
        | other => cases hargs

/-- Witness for C4: a verifier run with the default trust store that exits
non-zero; the signature path is `"app.asc"`. -/
theorem verifyGPG_exit_status_witness :
    (GpgWorld.mk true false).gpgFound = true ∧
    verifyGPGArgs ("app" ++ ".asc") Metadata.empty =
      some ["--verify", "app.asc"] ∧
    (VerifyGPG "app" Metadata.empty ⟨true, false⟩ =
      ([["--verify", "app.asc"]],
        GoResult.ok (false, some (SignErr.subprocess "gpg"))) ∧
     (["--verify", "app.asc"] : List String).getLast? = some ("app" ++ ".asc")) :=
  ⟨rfl, rfl, by
    have h := verifyGPG_exit_status "app" Metadata.empty ⟨true, false⟩ rfl
      ["--verify", "app.asc"] rfl
    simpa using h⟩

/-! ## Theorems: build matrix executor -/

/-- The build loop issues at most one invocation per target. -/
theorem Build_length_le (base : List String) (gopath gox : String)
    (targets : List BuildTarget) (runOk : Nat → Bool) :
    (Build base gopath gox targets runOk).1.length ≤ targets.length := by
  induction targets generalizing runOk with
  | nil => simp [Build]
  | cons t rest ih =>
    by_cases h : runOk 0 = true
    · simp only [Build, h, if_true, List.length_cons]
      exact Nat.succ_le_succ (ih _)
    · simp [Build, h]

/-- The invocations issued are exactly the constructed invocations of an
initial segment of the target list, in descriptor order. -/
theorem Build_invocations_initial_segment (base : List String)
    (gopath gox : String) (targets : List BuildTarget) (runOk : Nat → Bool) :
    (Build base gopath gox targets runOk).1 =
      (targets.take (Build base gopath gox targets runOk).1.length).map
        (mkGoxInvocation base gopath gox) := by
  induction targets generalizing runOk with
  | nil => simp [Build]
  | cons t rest ih =>
    by_cases h : runOk 0 = true
    · simp only [Build, h, if_true, List.length_cons, List.take_succ_cons,
        List.map_cons, List.cons.injEq, true_and]
      exact ih _
    · simp [Build, h]

/-- When every compiler run exits zero, each target is built exactly once
and the loop returns no error. -/
theorem Build_all_ok (base : List String) (gopath gox : String)
    (targets : List BuildTarget) (runOk : Nat → Bool)
    (h : ∀ i, i < targets.length → runOk i = true) :
    Build base gopath gox targets runOk =
      (targets.map (mkGoxInvocation base gopath gox), none) := by
  induction targets generalizing runOk with
  | nil => simp [Build]
  | cons t rest ih =>
    have h0 : runOk 0 = true := h 0 (Nat.succ_pos _)
    simp only [Build, h0, if_true, List.map_cons]
    rw [ih (fun i => runOk (i + 1))
      (fun i hi => h (i + 1) (Nat.succ_lt_succ hi))]

/-- Fail-fast: when the runs for every target before position `k` exit
zero and the run at position `k` exits non-zero, exactly the first `k + 1`
invocations are issued and the error is returned immediately — no
invocation for any later target occurs. -/
theorem Build_fail_fast (base : List String) (gopath gox : String)
    (pre : List BuildTarget) (t : BuildTarget) (post : List BuildTarget)
    (runOk : Nat → Bool) (hpre : ∀ i, i < pre.length → runOk i = true)
    (hfail : runOk pre.length = false) :
    Build base gopath gox (pre ++ t :: post) runOk =
      ((pre ++ [t]).map (mkGoxInvocation base gopath gox),
        some BuildErr.subprocess) := by
  induction pre generalizing runOk with
  | nil =>
    simp only [List.nil_append, List.length_nil] at hfail ⊢
    simp [Build, hfail]
  | cons p pre' ih =>
    have h0 : runOk 0 = true := hpre 0 (Nat.succ_pos _)
    simp only [List.length_cons] at hfail
    simp only [List.cons_append, Build, h0, if_true, List.append_eq]
    rw [ih (fun i => runOk (i + 1))
      (fun i hi => hpre (i + 1) (Nat.succ_lt_succ hi)) hfail]
    simp

/-- C2: for every non-empty list of build targets of size `N`, `Build`
invokes the external cross-compiler at most `N` times, exactly once per
target in descriptor order, each invocation carrying its own environment
overlay (the base environment, the `GOPATH` isolated-module-root entry and
the target's extra flags, per `goxEnv`) and its command line (with the
`-cgo` native-interop flag exactly when the target enables it, per
`goxArgs`); when every run exits zero there is exactly one invocation per
target and no error, and on the first non-zero exit the error is returned
immediately with no invocation for any later target. -/
theorem build_matrix_executor (base : List String) (gopath gox : String)
    (targets : List BuildTarget) (runOk : Nat → Bool)
    (hne : targets ≠ []) :
    (Build base gopath gox targets runOk).1.length ≤ targets.length ∧
    (Build base gopath gox targets runOk).1 =
      (targets.take (Build base gopath gox targets runOk).1.length).map
        (mkGoxInvocation base gopath gox) ∧
    ((∀ i, i < targets.length → runOk i = true) →
      Build base gopath gox targets runOk =
        (targets.map (mkGoxInvocation base gopath gox), none)) ∧
    (∀ pre t post, targets = pre ++ t :: post →
      (∀ i, i < pre.length → runOk i = true) → runOk pre.length = false →
      Build base gopath gox targets runOk =
        ((pre ++ [t]).map (mkGoxInvocation base gopath gox),
          some BuildErr.subprocess)) := by
  refine ⟨Build_length_le base gopath gox targets runOk,
    Build_invocations_initial_segment base gopath gox targets runOk,
    fun h => Build_all_ok base gopath gox targets runOk h,
    fun pre t post hsplit hpre hfail => ?_⟩
  rw [hsplit]
  exact Build_fail_fast base gopath gox pre t post runOk hpre hfail

/-- Witness for C2: a concrete two-target matrix whose first run exits
zero and whose second run exits non-zero — both invocations are issued
(with the cgo flag on the second) and the error is returned immediately. -/
theorem build_matrix_executor_witness :
    ([BuildTarget.mk "linux/amd64" false [("CC", "gcc")],
      BuildTarget.mk "darwin/amd64" true []] ≠ ([] : List BuildTarget)) ∧
    Build ["HOME=/root"] "/tmp/gp" "/tmp/gp/bin/gox"
        [BuildTarget.mk "linux/amd64" false [("CC", "gcc")],
         BuildTarget.mk "darwin/amd64" true []]
        (fun i => i == 0) =
      ([mkGoxInvocation ["HOME=/root"] "/tmp/gp" "/tmp/gp/bin/gox"
          (BuildTarget.mk "linux/amd64" false [("CC", "gcc")]),
        mkGoxInvocation ["HOME=/root"] "/tmp/gp" "/tmp/gp/bin/gox"
          (BuildTarget.mk "darwin/amd64" true [])],
       some BuildErr.subprocess) := by
  constructor
  · simp
  · have h := (build_matrix_executor ["HOME=/root"] "/tmp/gp" "/tmp/gp/bin/gox"
      [BuildTarget.mk "linux/amd64" false [("CC", "gcc")],
       BuildTarget.mk "darwin/amd64" true []]
      (fun i => i == 0) (by simp)).2.2.2
    have h2 := h [BuildTarget.mk "linux/amd64" false [("CC", "gcc")]]
      (BuildTarget.mk "darwin/amd64" true []) [] rfl
      (by intro i hi
          have hi0 : i = 0 := by simpa using Nat.lt_one_iff.mp (by simpa using hi)
          subst hi0; rfl) rfl
    simpa using h2

/-! ## Theorems: workspace lifecycle -/

/-- C6: if the caller supplied an empty workspace path, a fresh uniquely
named temporary directory is allocated and removed at run end (after
release it no longer exists); if the caller supplied a non-empty path,
that path is used verbatim and the release leaves the filesystem
untouched, so the path still exists after the run. -/
theorem workspace_lifecycle (workDir tmpName : String) (fs : List String) :
    (workDir = "" → tmpName ∉ fs →
      (wholeShebangWorkspace workDir tmpName fs).actualWorkDir = tmpName ∧
      (wholeShebangWorkspace workDir tmpName fs).selfAllocated = true ∧
      tmpName ∈ (wholeShebangWorkspace workDir tmpName fs).fsAfterAcquire ∧
      tmpName ∉ (wholeShebangWorkspace workDir tmpName fs).fsAfterRelease) ∧
    (workDir ≠ "" →
      (wholeShebangWorkspace workDir tmpName fs).actualWorkDir = workDir ∧
      (wholeShebangWorkspace workDir tmpName fs).selfAllocated = false ∧
      (wholeShebangWorkspace workDir tmpName fs).fsAfterRelease = fs ∧
      (workDir ∈ fs →
        workDir ∈ (wholeShebangWorkspace workDir tmpName fs).fsAfterRelease)) := by
  constructor
  · intro hempty hfresh
    subst hempty
    refine ⟨rfl, rfl, ?_, ?_⟩
    · simp [wholeShebangWorkspace]
    · simp [wholeShebangWorkspace, RemoveAll, List.mem_filter]
  · intro hne
    refine ⟨?_, ?_, ?_, ?_⟩ <;> simp [wholeShebangWorkspace, hne]

/-- Witness for C6: a fresh temp name with an empty explicit path, and a
caller-supplied path on a filesystem containing it. -/
theorem workspace_lifecycle_witness :
    (("" : String) = "" ∧ "/tmp/gomason123" ∉ (["/home"] : List String) ∧
      (wholeShebangWorkspace "" "/tmp/gomason123" ["/home"]).actualWorkDir =
        "/tmp/gomason123" ∧
      "/tmp/gomason123" ∉
        (wholeShebangWorkspace "" "/tmp/gomason123" ["/home"]).fsAfterRelease) ∧
    (("/work" : String) ≠ "" ∧
      (wholeShebangWorkspace "/work" "/tmp/gomason123" ["/work"]).fsAfterRelease =
        ["/work"]) := by
  constructor
  · have h := (workspace_lifecycle "" "/tmp/gomason123" ["/home"]).1 rfl
      (by decide)
    exact ⟨rfl, by decide, h.1, h.2.2.2⟩
  · have h := (workspace_lifecycle "/work" "/tmp/gomason123" ["/work"]).2
      (by decide)
    exact ⟨by decide, h.2.2.1⟩

/-! ## Theorems: binary collection -/

/-- A target string with at least two `/`-separated parts splits into an
os part, an arch part, and a remainder. -/
theorem splitOn_two_le {a : String} (h : 2 ≤ (stringsSplit a '/').length) :
    ∃ o ar tail, stringsSplit a '/' = o :: ar :: tail := by
  rcases hs : stringsSplit a '/' with _ | ⟨o, rest⟩
  · rw [hs] at h; simp at h
  · rcases rest with _ | ⟨ar, tail⟩
    · rw [hs] at h; simp at h
    · exact ⟨o, ar, tail, rfl⟩

/-- `osOf` picks the first part of the split. -/
theorem osOf_eq {a o ar : String} {tail : List String}
    (h : stringsSplit a '/' = o :: ar :: tail) : osOf a = o := by
  simp [osOf, h]

/-- `archNameOf` picks the second part of the split. -/
theorem archNameOf_eq {a o ar : String} {tail : List String}
    (h : stringsSplit a '/' = o :: ar :: tail) : archNameOf a = ar := by
  simp [archNameOf, h]

/-- One-step unfolding of the collection loop on a well-formed target. -/
theorem collectBinaries_cons (gopath pkg cwd : String)
    (renameOk : String → Bool) (fs : List String) (a : String)
    (rest : List String) {o ar : String} {tail : List String}
    (hsplit : stringsSplit a '/' = o :: ar :: tail) :
    collectBinaries gopath pkg cwd renameOk fs (a :: rest) =
      (if expectedBinary gopath pkg o ar ∈ fs then
         if renameOk (expectedBinary gopath pkg o ar) then
           match collectBinaries gopath pkg cwd renameOk
               (destBinary cwd pkg o ar ::
                 fs.erase (expectedBinary gopath pkg o ar)) rest with
           | GoResult.ok (fs', moves, e) =>
             GoResult.ok (fs',
               (expectedBinary gopath pkg o ar, destBinary cwd pkg o ar) :: moves, e)
           | GoResult.panicked => GoResult.panicked
         else GoResult.ok (fs, [],
           some (CollectErr.renameFail (expectedBinary gopath pkg o ar)))
       else GoResult.ok (fs, [],
         some (CollectErr.partialBuild (expectedBinary gopath pkg o ar)))) := by
  conv_lhs => rw [collectBinaries, hsplit]

/-- When every target is well-formed, every expected binary is present,
every rename succeeds and the expected binaries are pairwise distinct, the
loop performs exactly one rename per target, in order, into the caller's
directory, and returns no error. -/
theorem collectBinaries_all_ok (gopath pkg cwd : String)
    (renameOk : String → Bool) (targets : List String) :
    ∀ fs : List String,
    (∀ a ∈ targets, 2 ≤ (stringsSplit a '/').length) →
    (∀ a ∈ targets, expBin gopath pkg a ∈ fs ∧
      renameOk (expBin gopath pkg a) = true) →
    List.Pairwise (fun b c => expBin gopath pkg b ≠ expBin gopath pkg c)
      targets →
    ∃ fs', collectBinaries gopath pkg cwd renameOk fs targets =
      GoResult.ok (fs',
        targets.map (fun a => (expBin gopath pkg a, destOf cwd pkg a)),
        none) := by
  induction targets with
  | nil => intro fs _ _ _; exact ⟨fs, rfl⟩
  | cons a rest ih =>
    intro fs hwf hgood hpw
    obtain ⟨o, ar, tail, hsplit⟩ :=
      splitOn_two_le (hwf a (List.mem_cons_self a rest))
    have hbin : expectedBinary gopath pkg o ar = expBin gopath pkg a := by
      rw [expBin, osOf_eq hsplit, archNameOf_eq hsplit]
    have hdest : destBinary cwd pkg o ar = destOf cwd pkg a := by
      rw [destOf, osOf_eq hsplit, archNameOf_eq hsplit]
    obtain ⟨hhead, htail⟩ := List.pairwise_cons.mp hpw
    rw [collectBinaries_cons gopath pkg cwd renameOk fs a rest hsplit,
      hbin, hdest]
    rw [if_pos (hgood a (List.mem_cons_self a rest)).1,
      if_pos (hgood a (List.mem_cons_self a rest)).2]
    obtain ⟨fs', hrec⟩ := ih
      (destOf cwd pkg a :: fs.erase (expBin gopath pkg a))
      (fun b hb => hwf b (List.mem_cons_of_mem _ hb))
      (fun b hb =>
        ⟨List.mem_cons_of_mem _
          ((List.mem_erase_of_ne (Ne.symm (hhead b hb))).mpr
            (hgood b (List.mem_cons_of_mem _ hb)).1),
         (hgood b (List.mem_cons_of_mem _ hb)).2⟩)
      htail
    refine ⟨fs', ?_⟩
    rw [hrec]
    rfl

/-- When the targets before the split point are all well-formed, present
and renamable, their destination paths differ from the expected binary of
the split-point target, and that binary is absent, the loop renames
exactly the earlier binaries and stops with a partial-build error naming
the absent binary; later targets are never examined. -/
theorem collectBinaries_missing (gopath pkg cwd : String)
    (renameOk : String → Bool) (pre : List String) :
    ∀ (a : String) (post fs : List String),
    (∀ b ∈ pre ++ [a], 2 ≤ (stringsSplit b '/').length) →
    (∀ b ∈ pre, expBin gopath pkg b ∈ fs ∧
      renameOk (expBin gopath pkg b) = true) →
    List.Pairwise (fun b c => expBin gopath pkg b ≠ expBin gopath pkg c) pre →
    (∀ b ∈ pre, destOf cwd pkg b ≠ expBin gopath pkg a) →
    expBin gopath pkg a ∉ fs →
    ∃ fs', collectBinaries gopath pkg cwd renameOk fs (pre ++ a :: post) =
      GoResult.ok (fs',
        pre.map (fun b => (expBin gopath pkg b, destOf cwd pkg b)),
        some (CollectErr.partialBuild (expBin gopath pkg a))) := by
  induction pre with
  | nil =>
    intro a post fs hwf _ _ _ hmiss
    obtain ⟨o, ar, tail, hsplit⟩ :=
      splitOn_two_le (hwf a (by simp))
    have hbin : expectedBinary gopath pkg o ar = expBin gopath pkg a := by
      rw [expBin, osOf_eq hsplit, archNameOf_eq hsplit]
    rw [List.nil_append,
      collectBinaries_cons gopath pkg cwd renameOk fs a post hsplit, hbin,
      if_neg hmiss]
    exact ⟨fs, rfl⟩
  | cons p pre' ih =>
    intro a post fs hwf hgood hpw hsep hmiss
    obtain ⟨o, ar, tail, hsplit⟩ :=
      splitOn_two_le (hwf p (by simp))
    have hbin : expectedBinary gopath pkg o ar = expBin gopath pkg p := by
      rw [expBin, osOf_eq hsplit, archNameOf_eq hsplit]
    have hdest : destBinary cwd pkg o ar = destOf cwd pkg p := by
      rw [destOf, osOf_eq hsplit, archNameOf_eq hsplit]
    obtain ⟨hhead, htail⟩ := List.pairwise_cons.mp hpw
    rw [List.cons_append,
      collectBinaries_cons gopath pkg cwd renameOk fs p (pre' ++ a :: post)
        hsplit, hbin, hdest]
    rw [if_pos (hgood p (List.mem_cons_self p pre')).1,
      if_pos (hgood p (List.mem_cons_self p pre')).2]
    have hmiss' : expBin gopath pkg a ∉
        destOf cwd pkg p :: fs.erase (expBin gopath pkg p) := by
      intro hc
      rcases List.mem_cons.mp hc with hc | hc
      · exact hsep p (List.mem_cons_self p pre') hc.symm
      · exact hmiss (List.mem_of_mem_erase hc)
    obtain ⟨fs', hrec⟩ := ih a post
      (destOf cwd pkg p :: fs.erase (expBin gopath pkg p))
      (fun b hb => hwf b (by
        rcases List.mem_append.mp hb with hb | hb
        · exact List.mem_append.mpr (Or.inl (List.mem_cons_of_mem _ hb))
        · exact List.mem_append.mpr (Or.inr hb)))
      (fun b hb =>
        ⟨List.mem_cons_of_mem _
          ((List.mem_erase_of_ne (Ne.symm (hhead b hb))).mpr
            (hgood b (List.mem_cons_of_mem _ hb)).1),
         (hgood b (List.mem_cons_of_mem _ hb)).2⟩)
      htail
      (fun b hb => hsep b (List.mem_cons_of_mem _ hb))
      hmiss'
    refine ⟨fs', ?_⟩
    rw [hrec]
    rfl

/-- When the targets before the split point are all good, the split-point
binary is present but its rename fails, the loop renames exactly the
earlier binaries and stops with the wrapped rename error; the remaining
renames never happen. -/
theorem collectBinaries_rename_fails (gopath pkg cwd : String)
    (renameOk : String → Bool) (pre : List String) :
    ∀ (a : String) (post fs : List String),
    (∀ b ∈ pre ++ [a], 2 ≤ (stringsSplit b '/').length) →
    (∀ b ∈ pre, expBin gopath pkg b ∈ fs ∧
      renameOk (expBin gopath pkg b) = true) →
    List.Pairwise (fun b c => expBin gopath pkg b ≠ expBin gopath pkg c)
      (pre ++ [a]) →
    expBin gopath pkg a ∈ fs →
    renameOk (expBin gopath pkg a) = false →
    ∃ fs', collectBinaries gopath pkg cwd renameOk fs (pre ++ a :: post) =
      GoResult.ok (fs',
        pre.map (fun b => (expBin gopath pkg b, destOf cwd pkg b)),
        some (CollectErr.renameFail (expBin gopath pkg a))) := by
  induction pre with
  | nil =>
    intro a post fs hwf _ _ hmem hren
    obtain ⟨o, ar, tail, hsplit⟩ :=
      splitOn_two_le (hwf a (by simp))
    have hbin : expectedBinary gopath pkg o ar = expBin gopath pkg a := by
      rw [expBin, osOf_eq hsplit, archNameOf_eq hsplit]
    rw [List.nil_append,
      collectBinaries_cons gopath pkg cwd renameOk fs a post hsplit, hbin,
      if_pos hmem, if_neg (by simp [hren])]
    exact ⟨fs, rfl⟩
  | cons p pre' ih =>
    intro a post fs hwf hgood hpw hmem hren
    obtain ⟨o, ar, tail, hsplit⟩ :=
      splitOn_two_le (hwf p (by simp))
    have hbin : expectedBinary gopath pkg o ar = expBin gopath pkg p := by
      rw [expBin, osOf_eq hsplit, archNameOf_eq hsplit]
    have hdest : destBinary cwd pkg o ar = destOf cwd pkg p := by
      rw [destOf, osOf_eq hsplit, archNameOf_eq hsplit]
    have hpw' : List.Pairwise
        (fun b c => expBin gopath pkg b ≠ expBin gopath pkg c)
        (p :: (pre' ++ [a])) := by simpa using hpw
    obtain ⟨hhead, htail⟩ := List.pairwise_cons.mp hpw'
    rw [List.cons_append,
      collectBinaries_cons gopath pkg cwd renameOk fs p (pre' ++ a :: post)
        hsplit, hbin, hdest]
    rw [if_pos (hgood p (List.mem_cons_self p pre')).1,
      if_pos (hgood p (List.mem_cons_self p pre')).2]
    have hmem' : expBin gopath pkg a ∈
        destOf cwd pkg p :: fs.erase (expBin gopath pkg p) :=
      List.mem_cons_of_mem _
        ((List.mem_erase_of_ne
          (Ne.symm (hhead a (List.mem_append.mpr (Or.inr (by simp)))))).mpr hmem)
    obtain ⟨fs', hrec⟩ := ih a post
      (destOf cwd pkg p :: fs.erase (expBin gopath pkg p))
      (fun b hb => hwf b (by
        rcases List.mem_append.mp hb with hb | hb
        · exact List.mem_append.mpr (Or.inl (List.mem_cons_of_mem _ hb))
        · exact List.mem_append.mpr (Or.inr hb)))
      (fun b hb =>
        ⟨List.mem_cons_of_mem _
          ((List.mem_erase_of_ne
            (Ne.symm (hhead b (List.mem_append.mpr (Or.inl hb))))).mpr
            (hgood b (List.mem_cons_of_mem _ hb)).1),
         (hgood b (List.mem_cons_of_mem _ hb)).2⟩)
      htail hmem' hren
    refine ⟨fs', ?_⟩
    rw [hrec]
    rfl

/-- C7: after the compiler invocations, each build target's expected
binary `<packageTail>_<os>_<arch>` (under the workspace source directory)
is checked for existence in descriptor order: a missing binary yields the
distinct partial-build error even though the compiler reported success,
each existing binary is renamed into the caller's original working
directory, and a rename failure aborts the remaining renames. -/
theorem binary_collection (gopath pkg cwd : String)
    (renameOk : String → Bool) (targets fs : List String)
    (hwf : ∀ a ∈ targets, 2 ≤ (stringsSplit a '/').length)
    (hnodup : List.Pairwise
      (fun b c => expBin gopath pkg b ≠ expBin gopath pkg c) targets) :
    ((∀ a ∈ targets, expBin gopath pkg a ∈ fs ∧
        renameOk (expBin gopath pkg a) = true) →
      ∃ fs', collectBinaries gopath pkg cwd renameOk fs targets =
        GoResult.ok (fs',
          targets.map (fun a => (expBin gopath pkg a, destOf cwd pkg a)),
          none)) ∧
    (∀ pre a post, targets = pre ++ a :: post →
      (∀ b ∈ pre, expBin gopath pkg b ∈ fs ∧
        renameOk (expBin gopath pkg b) = true) →
      (∀ b ∈ pre, destOf cwd pkg b ≠ expBin gopath pkg a) →
      expBin gopath pkg a ∉ fs →
      ∃ fs', collectBinaries gopath pkg cwd renameOk fs targets =
        GoResult.ok (fs',
          pre.map (fun b => (expBin gopath pkg b, destOf cwd pkg b)),
          some (CollectErr.partialBuild (expBin gopath pkg a)))) ∧
    (∀ pre a post, targets = pre ++ a :: post →
      (∀ b ∈ pre, expBin gopath pkg b ∈ fs ∧
        renameOk (expBin gopath pkg b) = true) →
      expBin gopath pkg a ∈ fs →
      renameOk (expBin gopath pkg a) = false →
      ∃ fs', collectBinaries gopath pkg cwd renameOk fs targets =
        GoResult.ok (fs',
          pre.map (fun b => (expBin gopath pkg b, destOf cwd pkg b)),
          some (CollectErr.renameFail (expBin gopath pkg a)))) := by
  refine ⟨fun hgood => collectBinaries_all_ok gopath pkg cwd renameOk targets
    fs hwf hgood hnodup, ?_, ?_⟩
  · intro pre a post hsplit hgood hsep hmiss
    subst hsplit
    refine collectBinaries_missing gopath pkg cwd renameOk pre a post fs
      ?_ hgood ?_ hsep hmiss
    · intro b hb
      refine hwf b ?_
      rcases List.mem_append.mp hb with hb | hb
      · exact List.mem_append.mpr (Or.inl hb)
      · exact List.mem_append.mpr
          (Or.inr (List.mem_cons.mpr (Or.inl (by simpa using hb))))
    · exact (List.pairwise_append.mp hnodup).1
  · intro pre a post hsplit hgood hmem hren
    subst hsplit
    refine collectBinaries_rename_fails gopath pkg cwd renameOk pre a post fs
      ?_ hgood ?_ hmem hren
    · intro b hb
      refine hwf b ?_
      rcases List.mem_append.mp hb with hb | hb
      · exact List.mem_append.mpr (Or.inl hb)
      · exact List.mem_append.mpr
          (Or.inr (List.mem_cons.mpr (Or.inl (by simpa using hb))))
    · exact hnodup.sublist (((List.nil_sublist post).cons₂ a).append_left pre)

/-- Witness for C7: two targets whose first binary exists and renames
fine while the second binary is absent — exactly the first binary is
moved and the loop stops with the partial-build error naming the second. -/
theorem binary_collection_witness :
    (∀ a ∈ (["linux/amd64", "darwin/amd64"] : List String),
      2 ≤ (stringsSplit a '/').length) ∧
    (∃ fs', collectBinaries "/t" "acme/widget" "/h" (fun _ => true)
        ["/t/src/acme/widget/widget_linux_amd64"]
        ["linux/amd64", "darwin/amd64"] =
      GoResult.ok (fs',
        [("/t/src/acme/widget/widget_linux_amd64", "/h/widget_linux_amd64")],
        some (CollectErr.partialBuild
          "/t/src/acme/widget/widget_darwin_amd64"))) := by
  constructor
  · decide
  · have h := (binary_collection "/t" "acme/widget" "/h" (fun _ => true)
      ["linux/amd64", "darwin/amd64"]
      ["/t/src/acme/widget/widget_linux_amd64"]
      (by decide) (by decide)).2.1
    have h2 := h ["linux/amd64"] "darwin/amd64" [] rfl (by decide)
      (by decide) (by decide)
    exact h2

/-! ## Theorems: extras generator and pipeline orchestrator -/

/-- A rendered template containing the package placeholder contains the
descriptor's literal package string. -/
theorem render_contains_package (meta : Metadata) (tmpl : List Tok)
    (h : Tok.phPackage ∈ tmpl) :
    ∃ pre post, ParseTemplateForMetadata tmpl meta =
      pre ++ (meta.Package ++ post) := by
  induction tmpl with
  | nil => cases h
  | cons t rest ih =>
    cases t with
    | lit s =>
      obtain ⟨pre, post, hp⟩ := ih (by simpa using h)
      exact ⟨s ++ pre, post, by
        rw [ParseTemplateForMetadata, hp, String.append_assoc]⟩
    | phPackage =>
      exact ⟨"", ParseTemplateForMetadata rest meta, by
        rw [ParseTemplateForMetadata, String.empty_append]⟩
    | phVersion =>
      obtain ⟨pre, post, hp⟩ := ih (by simpa using h)
      exact ⟨meta.Version ++ pre, post, by
        rw [ParseTemplateForMetadata, hp, String.append_assoc]⟩
    | phDescription =>
      obtain ⟨pre, post, hp⟩ := ih (by simpa using h)
      exact ⟨meta.Description ++ pre, post, by
        rw [ParseTemplateForMetadata, hp, String.append_assoc]⟩

/-- A rendered template containing the version placeholder contains the
descriptor's literal version string. -/
theorem render_contains_version (meta : Metadata) (tmpl : List Tok)
    (h : Tok.phVersion ∈ tmpl) :
    ∃ pre post, ParseTemplateForMetadata tmpl meta =
      pre ++ (meta.Version ++ post) := by
  induction tmpl with
  | nil => cases h
  | cons t rest ih =>
    cases t with
    | lit s =>
      obtain ⟨pre, post, hp⟩ := ih (by simpa using h)
      exact ⟨s ++ pre, post, by
        rw [ParseTemplateForMetadata, hp, String.append_assoc]⟩
    | phVersion =>
      exact ⟨"", ParseTemplateForMetadata rest meta, by
        rw [ParseTemplateForMetadata, String.empty_append]⟩
    | phPackage =>
      obtain ⟨pre, post, hp⟩ := ih (by simpa using h)
      exact ⟨meta.Package ++ pre, post, by
        rw [ParseTemplateForMetadata, hp, String.append_assoc]⟩
    | phDescription =>
      obtain ⟨pre, post, hp⟩ := ih (by simpa using h)
      exact ⟨meta.Description ++ pre, post, by
        rw [ParseTemplateForMetadata, hp, String.append_assoc]⟩

/-- When every template read succeeds, the loop writes one file per
artifact, in order, with the rendered content and the mode dictated by the
executable flag. -/
theorem buildExtrasLoop_all_ok (meta : Metadata) (workdir : String)
    (tfs : String → Option (List Tok)) (extras : List ExtraArtifact)
    (hall : ∀ e ∈ extras, (tfs (workdir ++ "/" ++ e.Template)).isSome = true) :
    buildExtrasLoop meta workdir tfs extras =
      (extras.map (expectedWrite meta workdir tfs), none) := by
  induction extras with
  | nil => rfl
  | cons e rest ih =>
    obtain ⟨tmpl, htmpl⟩ := Option.isSome_iff_exists.mp
      (hall e (List.mem_cons_self e rest))
    rw [buildExtrasLoop, htmpl]
    rw [ih (fun e' he' => hall e' (List.mem_cons_of_mem _ he'))]
    simp [expectedWrite, htmpl]

/-- C8: for every extra artifact whose template is readable, `BuildExtras`
reads the template, renders it by substituting the descriptor's package,
version and description into the named placeholders, and writes the output
at `<workdir>/<fileName>` with mode `0755` (all three executable bits set)
when the executable flag is true and `0644` (no executable bit) when it is
false; a rendered template mentioning the package or version placeholder
contains the corresponding literal descriptor string. -/
theorem extras_rendering (meta : Metadata) (workdir : String)
    (tfs : String → Option (List Tok))
    (hall : ∀ e ∈ meta.BuildInfo.Extras,
      (tfs (workdir ++ "/" ++ e.Template)).isSome = true) :
    BuildExtras meta workdir tfs =
      (meta.BuildInfo.Extras.map (expectedWrite meta workdir tfs), none) ∧
    (∀ e ∈ meta.BuildInfo.Extras,
      (expectedWrite meta workdir tfs e).mode =
        (if e.Executable then 493 else 420) ∧
      (expectedWrite meta workdir tfs e).path = workdir ++ "/" ++ e.FileName ∧
      ((if e.Executable then (493 : Nat) else 420) &&& 73 =
        if e.Executable then 73 else 0)) ∧
    (∀ tmpl : List Tok, Tok.phPackage ∈ tmpl →
      ∃ pre post, ParseTemplateForMetadata tmpl meta =
        pre ++ (meta.Package ++ post)) ∧
    (∀ tmpl : List Tok, Tok.phVersion ∈ tmpl →
      ∃ pre post, ParseTemplateForMetadata tmpl meta =
        pre ++ (meta.Version ++ post)) := by
  refine ⟨buildExtrasLoop_all_ok meta workdir tfs meta.BuildInfo.Extras hall,
    fun e _ => ⟨rfl, rfl, ?_⟩,
    fun tmpl h => render_contains_package meta tmpl h,
    fun tmpl h => render_contains_version meta tmpl h⟩
  cases e.Executable <;> decide

/-- Witness for C8: one executable and one plain artifact, both templates
present, the executable one mentioning the package and version
placeholders. -/
theorem extras_rendering_witness :
    (∀ e ∈ extrasMeta.BuildInfo.Extras,
      (extrasTfs ("/w" ++ "/" ++ e.Template)).isSome = true) ∧
    BuildExtras extrasMeta "/w" extrasTfs =
      ([{ path := "/w/run.sh", content := "pkg=acme/widget v=1.2.3",
          mode := 493 },
        { path := "/w/notes.txt", content := "readme", mode := 420 }],
       none) := by
  constructor
  · decide
  · have h := (extras_rendering extrasMeta "/w" extrasTfs (by decide)).1
    exact h.trans (by decide)

/-- C5 (code-bug evidence): in `WholeShebang` the `Build` call's returned
error is discarded (testing.go line 194), contradicting the propagation
policy.  With every stage succeeding except the compiler run: if the
expected binaries happen to exist (e.g. stale artifacts of an earlier
run), the pipeline reports overall success; if they do not, it reports the
converted collection error — in neither case is a build-stage error
returned. -/
theorem wholeShebang_swallows_build_error :
    (WholeShebang shebangWorldStale "" true false false).2 = none ∧
    (WholeShebang shebangWorldClean "" true false false).2 =
      some ⟨StageTag.collect, false⟩ :=
  ⟨rfl, rfl⟩

end Gomason
